import Mathlib

/-!
Shallow embedding of `resolve.py`, an iterative DNS resolver built on dnspython.

The external DNS protocol library is modelled as an oracle (`Net`) mapping a
query `(targetName, qtype, serverAddress)` to an optional parsed response;
`none` covers both a transport failure (the bare `except: continue`) and a
falsy response.  Record type codes are the dnspython wire values the source
itself compares against: A = 1, CNAME = 5, SOA = 6, MX = 15, AAAA = 28.

Python exceptions that escape (the `IndexError` reachable in `dns_caching`,
and the one reachable in `lookup` on a dotless name) are modelled as
`Except.error RErr.crash`; the unbounded recursion of `_recurlookup` is made
total with an explicit fuel parameter, `Except.error RErr.fuelOut` marking
fuel exhaustion (never confused with the genuine absent result, which is
`Except.ok (none, cache)`).  The two process-global dicts (`dns_cache`,
`domain_cache`) are threaded explicitly as insertion-ordered association
lists, matching Python dict semantics for the operations the source uses.
-/

namespace DnsResolver

/-- One resource record as the source observes it: its type code
(`answer.rdtype`), its textual rendering (`str(answer)`), and the MX fields
(`answer.preference`, `str(answer.exchange)`); the latter two are only
meaningful for MX records. -/
structure Rec where
  rdtype : Nat
  text : String
  preference : Nat
  exchange : String
deriving DecidableEq

/-- One RRset group of a message section: its owner name rendering
(`answers.name`), its whole-group textual rendering (`str(rrset)`, which the
source feeds to `dns_caching`), and its records. -/
structure RRset where
  name : String
  render : String
  recs : List Rec
deriving DecidableEq

/-- A parsed DNS response message: answer, authority and additional sections. -/
structure Response where
  answer : List RRset
  authority : List RRset
  additional : List RRset
deriving DecidableEq

/-- The transport oracle: `net targetName qtype server` is the parsed response,
or `none` on transport failure / falsy response. -/
abbrev Net := String → Nat → String → Option Response

/-- Escaping abnormal outcomes: an uncaught Python exception, or fuel
exhaustion of the embedding (the source has no recursion bound). -/
inductive RErr
  | crash
  | fuelOut
deriving DecidableEq

/-- Insertion-ordered association list modelling a Python dict. -/
def assocFind {β : Type} : List (String × β) → String → Option β
  | [], _ => none
  | (k, v) :: rest, key => if k = key then some v else assocFind rest key

/-- Python dict item assignment: overwrite in place, else append. -/
def assocSet {β : Type} : List (String × β) → String → β → List (String × β)
  | [], key, v => [(key, v)]
  | (k, w) :: rest, key, v =>
    if k = key then (k, v) :: rest else (k, w) :: assocSet rest key v

/-- The process-global `dns_cache`: zone label to list of addresses. -/
abbrev Cache := List (String × List String)

/-- Split a character list at every character satisfying `p`; the accumulator
holds the current token reversed.  Splitting the empty list yields one empty
token, matching Python's separator-based `str.split`. -/
def splitChars (p : Char → Bool) : List Char → List Char → List String
  | [], cur => [String.mk cur.reverse]
  | c :: cs, cur =>
    if p c then String.mk cur.reverse :: splitChars p cs []
    else splitChars p cs (c :: cur)

/-- Python's no-argument `str.split()`: split on whitespace runs, dropping
empty tokens. -/
def pySplitWs (s : String) : List String :=
  (splitChars (fun c => c.isWhitespace) s.data []).filter (fun t => t ≠ "")

/-- Python's `str.split(".")`: split at every dot, keeping empty tokens. -/
def pySplitDot (s : String) : List String :=
  splitChars (fun c => c = '.') s.data []

/-- Python's `str[:-1]`: drop the last character. -/
def pyDropLast (s : String) : String := String.mk s.data.dropLast

/-- Python's `l[-2]`: the second-to-last element, `none` standing for the
`IndexError` raised when the list has fewer than two elements. -/
def pyNeg2 {β : Type} (l : List β) : Option β :=
  if 2 ≤ l.length then l.get? (l.length - 2) else none

/-- The cache mutation performed inside `dns_caching` (lines 164-168): create
the zone's entry if the zone is unseen, else append the address unless it is
already present. -/
def cacheMerge (c : Cache) (z a : String) : Cache :=
  match assocFind c z with
  | none => assocSet c z [a]
  | some cur => if a ∈ cur then c else assocSet c z (cur ++ [a])

/-- The token loop of `dns_caching` (lines 160-168): for every token equal to
`A`, recompute the owner-name split, set `address` to the last token, and
merge into the cache; a first token with fewer than two dot components makes
`v[-2]` raise `IndexError` (modelled as `crash`). -/
def glueLoop (first last : String) :
    List String → List String → Cache → Except RErr (List String × Cache)
  | [], addr, cache => Except.ok (addr, cache)
  | t :: rest, addr, cache =>
    if t = "A" then
      match pyNeg2 (pySplitDot first) with
      | none => Except.error RErr.crash
      | some key => glueLoop first last rest [last] (cacheMerge cache key last)
    else
      glueLoop first last rest addr cache

/-- `dns_caching` (lines 157-169): the Glue Extractor.  Splits the record
rendering into whitespace tokens and runs the token loop; returns the
extracted address list together with the updated cache. -/
def dns_caching (s : String) (cache : Cache) : Except RErr (List String × Cache) :=
  match pySplitWs s with
  | [] => Except.ok ([], cache)
  | t :: rest => glueLoop t ((t :: rest).getLast (List.cons_ne_nil t rest)) (t :: rest) [] cache

/-- The 13 compiled-in root server addresses (lines 20-32). -/
def rootServers : List String :=
  ["198.41.0.4", "192.228.79.201", "192.33.4.12", "199.7.91.13",
   "192.203.230.10", "192.5.5.241", "192.112.36.4", "198.97.190.53",
   "192.36.148.17", "192.58.128.30", "193.0.14.129", "199.7.83.42",
   "202.12.27.33"]

/-- The type of the recursive call available one fuel level down. -/
abbrev RecurFn := String → Nat → List String → Cache → Except RErr (Option Response × Cache)

/-- Inner answer-record walk (lines 146-154) over one RRset's records:
reassign `target_name` to `str(answer)[:-1]`, return the response on an exact
type match, restart from the roots on a CNAME (rdtype 5) when the type did
not match, else keep walking.  `Sum.inl` is a function return value,
`Sum.inr tn` means the walk fell through with `target_name` now `tn`. -/
def answerWalk (recur : RecurFn) (qtype : Nat) (resp : Response) (cache : Cache) :
    List Rec → String → Except RErr (Sum (Option Response × Cache) String)
  | [], tn => Except.ok (Sum.inr tn)
  | r :: rest, _tn =>
    let tn' := pyDropLast r.text
    if r.rdtype = qtype then Except.ok (Sum.inl (some resp, cache))
    else if r.rdtype = 5 then (recur tn' qtype rootServers cache).map Sum.inl
    else answerWalk recur qtype resp cache rest tn'

/-- Outer answer-section walk (line 146): run the inner walk over each RRset
group in order, threading the mutated `target_name`. -/
def answerWalkGroups (recur : RecurFn) (qtype : Nat) (resp : Response) (cache : Cache) :
    List RRset → String → Except RErr (Sum (Option Response × Cache) String)
  | [], tn => Except.ok (Sum.inr tn)
  | g :: gs, tn =>
    match answerWalk recur qtype resp cache g.recs tn with
    | Except.ok (Sum.inr tn') => answerWalkGroups recur qtype resp cache gs tn'
    | other => other

/-- Glue accumulation over the additional section (lines 141-142):
`list_of_addresses += dns_caching(str(additional))` for each additional RRset. -/
def glueFold : List RRset → List String → Cache → Except RErr (List String × Cache)
  | [], addrs, cache => Except.ok (addrs, cache)
  | g :: gs, addrs, cache =>
    match dns_caching g.render cache with
    | Except.error e => Except.error e
    | Except.ok (a, c') => glueFold gs (addrs ++ a) c'

/-- Name-server extraction from one authority RRset (lines 124-127): append
`str(auth)[:-1]` for every record whose rdtype is not 6 (SOA). -/
def nsAccum : List Rec → List String → List String
  | [], acc => acc
  | r :: rest, acc =>
    if r.rdtype = 6 then nsAccum rest acc
    else nsAccum rest (acc ++ [pyDropLast r.text])

/-- The answers loop of the glueless branch (lines 133-138): feed each answer
RRset rendering of the sub-resolution through the Glue Extractor, recurse on
the current target name and query type with the extracted addresses, and
return the first non-absent result.  `Sum.inr` means no path succeeded,
carrying the mutated cache forward. -/
def ansLoop (recur : RecurFn) (qtype : Nat) (tn : String) :
    List RRset → Cache → Except RErr (Sum (Option Response × Cache) Cache)
  | [], cache => Except.ok (Sum.inr cache)
  | g :: gs, cache =>
    match dns_caching g.render cache with
    | Except.error e => Except.error e
    | Except.ok (addrs, c1) =>
      match recur tn qtype addrs c1 with
      | Except.error e => Except.error e
      | Except.ok (some r, c2) => Except.ok (Sum.inl (some r, c2))
      | Except.ok (none, c2) => ansLoop recur qtype tn gs c2

/-- The hostname loop of the glueless branch (lines 129-138): resolve each
accumulated hostname's address with query type A (code 1) from the root
servers, then run the answers loop on a successful sub-resolution. -/
def hostLoop (recur : RecurFn) (qtype : Nat) (tn : String) :
    List String → Cache → Except RErr (Sum (Option Response × Cache) Cache)
  | [], cache => Except.ok (Sum.inr cache)
  | h :: hs, cache =>
    match recur h 1 rootServers cache with
    | Except.error e => Except.error e
    | Except.ok (none, c1) => hostLoop recur qtype tn hs c1
    | Except.ok (some aresp, c1) =>
      match ansLoop recur qtype tn aresp.answer c1 with
      | Except.error e => Except.error e
      | Except.ok (Sum.inl r) => Except.ok (Sum.inl r)
      | Except.ok (Sum.inr c2) => hostLoop recur qtype tn hs c2

/-- The authority-group loop of the glueless branch (lines 121-138):
`ns_records` accumulates across groups, and the hostname loop runs over the
whole accumulated list once per group, exactly as the source nests it. -/
def authLoop (recur : RecurFn) (qtype : Nat) (tn : String) :
    List RRset → List String → Cache → Except RErr (Sum (Option Response × Cache) Cache)
  | [], _ns, cache => Except.ok (Sum.inr cache)
  | g :: gs, ns, cache =>
    let ns' := nsAccum g.recs ns
    match hostLoop recur qtype tn ns' cache with
    | Except.error e => Except.error e
    | Except.ok (Sum.inl r) => Except.ok (Sum.inl r)
    | Except.ok (Sum.inr c1) => authLoop recur qtype tn gs ns' c1

/-- The per-candidate server loop of `_recurlookup` (lines 108-154).  The
query is built once from the invocation's name (`origName`); `tn` is the
mutable `target_name` variable, threaded across candidates because the
answer walk reassigns it. -/
def serverLoop (recur : RecurFn) (net : Net) (origName : String) (qtype : Nat) :
    List String → String → Cache → Except RErr (Option Response × Cache)
  | [], _tn, cache => Except.ok (none, cache)
  | s :: rest, tn, cache =>
    match net origName qtype s with
    | none => serverLoop recur net origName qtype rest tn cache
    | some resp =>
      if resp.answer = [] then
        if resp.additional = [] then
          match authLoop recur qtype tn resp.authority [] cache with
          | Except.error e => Except.error e
          | Except.ok (Sum.inl r) => Except.ok r
          | Except.ok (Sum.inr c1) => serverLoop recur net origName qtype rest tn c1
        else
          match glueFold resp.additional [] cache with
          | Except.error e => Except.error e
          | Except.ok (addrs, c1) => recur tn qtype addrs c1
      else
        match answerWalkGroups recur qtype resp cache resp.answer tn with
        | Except.error e => Except.error e
        | Except.ok (Sum.inl r) => Except.ok r
        | Except.ok (Sum.inr tn') => serverLoop recur net origName qtype rest tn' cache

/-- `_recurlookup` (lines 104-155) with explicit fuel: an empty candidate
list returns the absent result immediately; otherwise run the server loop,
every recursive call of the source dropping one fuel level. -/
def recurlookup (net : Net) : Nat → String → Nat → List String → Cache →
    Except RErr (Option Response × Cache)
  | 0, _, _, _, _ => Except.error RErr.fuelOut
  | fuel + 1, name, qtype, servers, cache =>
    if servers = [] then Except.ok (none, cache)
    else serverLoop (recurlookup net fuel) net name qtype servers name cache

/-- `lookup` (lines 172-180): the Query Router.  Key the cache by the
second-to-last dot-separated component of the name (`first_req[-2]`, an
`IndexError` on a dotless name); seed the engine with the cached list when
present, else with the root servers. -/
def lookup (net : Net) (fuel : Nat) (target_name : String) (qtype : Nat) (cache : Cache) :
    Except RErr (Option Response × Cache) :=
  let first_req := pySplitDot target_name
  match pyNeg2 first_req with
  | none => Except.error RErr.crash
  | some tld_domain =>
    match assocFind cache tld_domain with
    | some cached_address => recurlookup net fuel target_name qtype cached_address cache
    | none => recurlookup net fuel target_name qtype rootServers cache

/-- `dns.name.from_text` as the source observes it through `str`: an absolute
name rendering with a trailing dot. -/
def fromText (name : String) : String :=
  if name.data.getLast? = some '.' then name else name ++ "."

/-- Inner CNAME-collection loop (lines 57-61): append an entry for every
answer record, with no record-type filter, and rewrite the target name to
`str(answer)[:-1]` each time. -/
def cnameInner (aliasName : String) :
    List Rec → List (String × String) → String → List (String × String) × String
  | [], acc, tn => (acc, tn)
  | r :: rest, acc, _tn => cnameInner aliasName rest (acc ++ [(r.text, aliasName)]) (pyDropLast r.text)

/-- Outer CNAME-collection loop (line 56) over the answer RRset groups. -/
def cnameCollect (aliasName : String) :
    List RRset → List (String × String) → String → List (String × String) × String
  | [], acc, tn => (acc, tn)
  | g :: gs, acc, tn =>
    let p := cnameInner aliasName g.recs acc tn
    cnameCollect aliasName gs p.1 p.2

/-- The A/AAAA collection loops (lines 67-71, 77-82): for each answer RRset,
keep `(answers.name, str(answer))` for exactly the records whose rdtype is
the requested code. -/
def typedCollect (t : Nat) : List RRset → List (String × String)
  | [] => []
  | g :: gs =>
    (g.recs.filter (fun r => r.rdtype = t)).map (fun r => (g.name, r.text)) ++ typedCollect t gs

/-- The MX collection loop (lines 88-94): keep
`(answers.name, preference, str(exchange))` for exactly the rdtype-15 records. -/
def mxCollect : List RRset → List (String × Nat × String)
  | [] => []
  | g :: gs =>
    (g.recs.filter (fun r => r.rdtype = 15)).map (fun r => (g.name, r.preference, r.exchange))
      ++ mxCollect gs

/-- The aggregate a single `collect_results` call builds (lines 44-99). -/
structure DomainResult where
  cnames : List (String × String)
  arecords : List (String × String)
  aaaarecords : List (String × String)
  mxrecords : List (String × Nat × String)
deriving DecidableEq

/-- `collect_results` (lines 39-101): the Answer Aggregator.  Four sequential
lookups, CNAME (5) then A (1) then AAAA (28) then MX (15); the last three
target the CNAME-rewritten name; A/AAAA/MX filter by exact rdtype while the
CNAME loop keeps every answer record. -/
def collect_results (net : Net) (fuel : Nat) (name : String) (cache : Cache) :
    Except RErr (DomainResult × Cache) :=
  match lookup net fuel (fromText name) 5 cache with
  | Except.error e => Except.error e
  | Except.ok (respC, c1) =>
    let p := match respC with
      | none => (([] : List (String × String)), fromText name)
      | some r => cnameCollect name r.answer [] (fromText name)
    match lookup net fuel p.2 1 c1 with
    | Except.error e => Except.error e
    | Except.ok (respA, c2) =>
      let arecords := match respA with
        | none => []
        | some r => typedCollect 1 r.answer
      match lookup net fuel p.2 28 c2 with
      | Except.error e => Except.error e
      | Except.ok (respAAAA, c3) =>
        let aaaarecords := match respAAAA with
          | none => []
          | some r => typedCollect 28 r.answer
        match lookup net fuel p.2 15 c3 with
        | Except.error e => Except.error e
        | Except.ok (respMX, c4) =>
          let mxrecords := match respMX with
            | none => []
            | some r => mxCollect r.answer
          Except.ok ({ cnames := p.1, arecords := arecords,
                       aaaarecords := aaaarecords, mxrecords := mxrecords }, c4)

/-- The process-global `domain_cache`: queried name to Domain Result. -/
abbrev DomainCache := List (String × DomainResult)

/-- The input dedup loop of `main` (lines 206-209): keep the first occurrence
of each exact string. -/
def pydedup (names : List String) : List String :=
  names.foldl (fun acc i => if i ∈ acc then acc else acc ++ [i]) []

/-- One iteration of `main`'s per-name loop (lines 210-215): serve a cached
Domain Result untouched, else aggregate and store it. -/
def processOne (net : Net) (fuel : Nat) (name : String) (dc : DomainCache) (cache : Cache) :
    Except RErr (DomainResult × DomainCache × Cache) :=
  match assocFind dc name with
  | some r => Except.ok (r, dc, cache)
  | none =>
    match collect_results net fuel name cache with
    | Except.error e => Except.error e
    | Except.ok (r, c') => Except.ok (r, dc ++ [(name, r)], c')

/-- The per-name loop of `main` over a whole argument list. -/
def processNames (net : Net) (fuel : Nat) :
    List String → DomainCache → Cache → Except RErr (List DomainResult × DomainCache × Cache)
  | [], dc, cache => Except.ok ([], dc, cache)
  | n :: rest, dc, cache =>
    match processOne net fuel n dc cache with
    | Except.error e => Except.error e
    | Except.ok (r, dc', c') =>
      match processNames net fuel rest dc' c' with
      | Except.error e => Except.error e
      | Except.ok (rs, dc'', c'') => Except.ok (r :: rs, dc'', c'')

/-- `main` (lines 194-215): dedup the argument names, then process each with
both global caches starting empty. -/
def main (net : Net) (fuel : Nat) (args : List String) :
    Except RErr (List DomainResult × DomainCache × Cache) :=
  processNames net fuel (pydedup args) [] []

/-- All records of an answer section in walk order (the nested
`for answers in response.answer: for answer in answers` flattened). -/
def flatRecs (groups : List RRset) : List Rec :=
  (groups.map RRset.recs).flatten

/-- The full `ns_records` accumulation over every authority group. -/
def authAllNames (groups : List RRset) (ns : List String) : List String :=
  groups.foldl (fun acc g => nsAccum g.recs acc) ns

/-- A successful glueless-referral path for hostname `h`: a type-A
sub-resolution of `h` seeded from the root servers succeeded, one of its
answer RRset renderings passed through the Glue Extractor, and the recursion
on the current target name and query type with the extracted addresses
produced the result `r` with final cache `cFin`. -/
def subResolutionPath (recur : RecurFn) (qtype : Nat) (tn h : String) (r : Response)
    (cFin : Cache) : Prop :=
  ∃ c1 ar c2, recur h 1 rootServers c1 = Except.ok (some ar, c2) ∧
    ∃ g ∈ ar.answer, ∃ c3 addrs c4, dns_caching g.render c3 = Except.ok (addrs, c4) ∧
      recur tn qtype addrs c4 = Except.ok (some r, cFin)

/-- A referral chain of the given depth with full glue at every level: each
hop's server answers with an empty answer section and a single additional
RRset whose rendering the Glue Extractor maps to exactly the next hop's
address, and the last server answers with `final`.  The oracle is
constrained at nothing else, in particular at no root server beyond the
chain itself. -/
inductive GlueChain (net : Net) (name : String) (qtype : Nat) (final : Response) :
    String → Nat → Prop
  | last (a : String) (h : net name qtype a = some final) :
      GlueChain net name qtype final a 0
  | hop (a b : String) (g : RRset) (n : Nat)
      (hnet : net name qtype a = some (Response.mk [] [] [g]))
      (hglue : ∀ c : Cache, ∃ c', dns_caching g.render c = Except.ok ([b], c'))
      (hrest : GlueChain net name qtype final b n) :
      GlueChain net name qtype final a (n + 1)

/-- The empty Domain Result (all four record kinds absent). -/
def emptyDR : DomainResult := ⟨[], [], [], []⟩

/-- An oracle on which every transport attempt fails. -/
def noNet : Net := fun _ _ _ => none

/-- A recursive-call stub that always reports the absent result. -/
def noRecur : RecurFn := fun _ _ _ c => Except.ok (none, c)

/-- A direct-answer response used by concrete instances. -/
def w1resp : Response := ⟨[⟨"example.com.", "", [⟨1, "9.9.9.9", 0, ""⟩]⟩], [], []⟩

/-- An oracle that always returns `w1resp`. -/
def w1net : Net := fun _ _ _ => some w1resp

/-- A glueless referral whose single authority record is CNAME-typed
(rdtype 5), exercising the authority-record skip condition. -/
def c2refResp : Response := ⟨[], [⟨"com.", "", [⟨5, "ns5.example.com.", 0, ""⟩]⟩], []⟩

/-- The type-A sub-resolution answer for the hostname named by the
CNAME-typed authority record. -/
def c2nsResp : Response :=
  ⟨[⟨"ns5.example.com.", "ns5.example.com. 300 IN A 7.7.7.7", [⟨1, "7.7.7.7", 0, ""⟩]⟩], [], []⟩

/-- The terminal answer reachable only through that authority record. -/
def c2finalResp : Response := ⟨[⟨"example.com.", "", [⟨1, "9.9.9.9", 0, ""⟩]⟩], [], []⟩

/-- Oracle for the authority-skip scenario: the referral at `r1`, the
hostname's A record at the first root, the final answer at the glue-learned
address, and transport failure everywhere else. -/
def c2net : Net := fun name qtype server =>
  if name = "example.com." ∧ qtype = 1 ∧ server = "r1" then some c2refResp
  else if name = "ns5.example.com" ∧ qtype = 1 ∧ server = "198.41.0.4" then some c2nsResp
  else if name = "example.com." ∧ qtype = 1 ∧ server = "7.7.7.7" then some c2finalResp
  else none

/-- A sub-resolution answer whose RRset rendering parses to one glue address. -/
def c2wAr : Response := ⟨[⟨"", "h1. A 5.5.5.5", []⟩], [], []⟩

/-- A terminal response for the glueless-path instance. -/
def c2wFin : Response := ⟨[], [], [⟨"", "", []⟩]⟩

/-- A recursive-call stub: the target name resolves to `c2wFin`, any other
name (a name-server hostname) to `c2wAr`. -/
def c2wRecur : RecurFn := fun n _q _ss c =>
  if n = "tn0" then Except.ok (some c2wFin, c) else Except.ok (some c2wAr, c)

/-- One authority RRset naming the host `h1` through an NS (rdtype 2) record. -/
def c2wAuthG : RRset := ⟨"", "", [⟨2, "h1.", 0, ""⟩]⟩

/-- A referral with glue: empty answer section, one additional RRset. -/
def c3resp : Response := ⟨[], [], [⟨"", "ns.example.com. 300 IN A 6.6.6.6", []⟩]⟩

/-- An oracle that always returns the glue referral `c3resp`. -/
def c3net : Net := fun _ _ _ => some c3resp

/-- A CNAME-lookup response whose answer section interleaves a non-CNAME
(rdtype 1) record before the CNAME record. -/
def c6respC : Response :=
  ⟨[⟨"www.example.com.", "", [⟨1, "1.2.3.4", 0, ""⟩, ⟨5, "real.example.com.", 0, ""⟩]⟩], [], []⟩

/-- Oracle answering only the CNAME query for `www.example.com.`. -/
def c6net : Net := fun name qtype _server =>
  if name = "www.example.com." ∧ qtype = 5 then some c6respC else none

/-- The glue RRset of the depth-one chain instance. -/
def c9glueRR : RRset := ⟨"", "ns.example.com. 300 IN A 2.2.2.2", []⟩

/-- The terminal answer of the depth-one chain instance. -/
def c9final : Response := ⟨[⟨"example.com.", "", [⟨1, "3.3.3.3", 0, ""⟩]⟩], [], []⟩

/-- Oracle realising a depth-one full-glue referral chain. -/
def c9net : Net := fun name qtype server =>
  if name = "example.com." ∧ qtype = 1 ∧ server = "1.1.1.1" then
    some (Response.mk [] [] [c9glueRR])
  else if name = "example.com." ∧ qtype = 1 ∧ server = "2.2.2.2" then some c9final
  else none

theorem assocFind_set_self {β : Type} (c : List (String × β)) (k : String) (v : β) :
    assocFind (assocSet c k v) k = some v := by
  induction c with
  | nil => simp [assocSet, assocFind]
  | cons hd tl ih =>
    obtain ⟨k', w⟩ := hd
    by_cases h : k' = k
    · simp [assocSet, assocFind, h]
    · simp [assocSet, assocFind, h, ih]

theorem assocFind_set_ne {β : Type} (c : List (String × β)) (k k' : String) (v : β)
    (h : k' ≠ k) : assocFind (assocSet c k v) k' = assocFind c k' := by
  have hne : k ≠ k' := fun hh => h hh.symm
  induction c with
  | nil => simp [assocSet, assocFind, hne]
  | cons hd tl ih =>
    obtain ⟨k0, w⟩ := hd
    by_cases h0 : k0 = k
    · subst h0
      simp [assocSet, assocFind, hne]
    · simp [assocSet, assocFind, h0, ih]

theorem cacheMerge_of_mem (c : Cache) (z a : String) (l : List String)
    (hfind : assocFind c z = some l) (hal : a ∈ l) : cacheMerge c z a = c := by
  simp [cacheMerge, hfind, hal]

theorem assocFind_append_self {β : Type} (c : List (String × β)) (k : String) (v : β)
    (h : assocFind c k = none) : assocFind (c ++ [(k, v)]) k = some v := by
  induction c with
  | nil => simp [assocFind]
  | cons hd tl ih =>
    obtain ⟨k0, w⟩ := hd
    by_cases h0 : k0 = k
    · simp [assocFind, h0] at h
    · simp [assocFind, h0] at h ⊢
      exact ih h

/-- C10: the Glue Extractor is not total.  On the record rendering
`"localhost A 1.2.3.4"`, whose first whitespace token `"localhost"` has a
single dot component, `dns_caching` hits the out-of-range `v[-2]` access and
the `IndexError` escapes (the source wraps no handler around it) instead of
the record being ignored. -/
theorem c10_glue_extractor_index_crash :
    "A" ∈ pySplitWs "localhost A 1.2.3.4" ∧
    pyNeg2 (pySplitDot "localhost") = none ∧
    dns_caching "localhost A 1.2.3.4" [] = Except.error RErr.crash :=
  ⟨by decide, rfl, rfl⟩

/-- C7: the Address Cache merge of `dns_caching`.  Merging an address under
an unseen zone creates the singleton entry; a cache already holding the
address is returned unchanged, so the merge is idempotent and two merges
from an unseen zone leave the address exactly once; and every pre-existing
entry survives a merge with all of its addresses, so the cache only grows. -/
theorem c7_cache_merge_monotone_idempotent :
    (∀ (c : Cache) (z a : String), assocFind c z = none →
       assocFind (cacheMerge c z a) z = some [a]) ∧
    (∀ (c : Cache) (z a : String), ∃ l, assocFind (cacheMerge c z a) z = some l ∧ a ∈ l) ∧
    (∀ (c : Cache) (z a : String), cacheMerge (cacheMerge c z a) z a = cacheMerge c z a) ∧
    (∀ (c : Cache) (z a : String), assocFind c z = none →
       List.count a ((assocFind (cacheMerge (cacheMerge c z a) z a) z).getD []) = 1) ∧
    (∀ (c : Cache) (z a z' : String) (l : List String), assocFind c z' = some l →
       ∃ l', assocFind (cacheMerge c z a) z' = some l' ∧ ∀ x ∈ l, x ∈ l') := by
  have hcreate : ∀ (c : Cache) (z a : String), assocFind c z = none →
      assocFind (cacheMerge c z a) z = some [a] := by
    intro c z a h
    simp [cacheMerge, h, assocFind_set_self]
  have hmem : ∀ (c : Cache) (z a : String),
      ∃ l, assocFind (cacheMerge c z a) z = some l ∧ a ∈ l := by
    intro c z a
    cases h : assocFind c z with
    | none => exact ⟨[a], hcreate c z a h, by simp⟩
    | some cur =>
      by_cases ha : a ∈ cur
      · exact ⟨cur, by simp [cacheMerge, h, ha], ha⟩
      · exact ⟨cur ++ [a], by simp [cacheMerge, h, ha, assocFind_set_self], by simp⟩
  have hidem : ∀ (c : Cache) (z a : String),
      cacheMerge (cacheMerge c z a) z a = cacheMerge c z a := by
    intro c z a
    obtain ⟨l, hfind, hal⟩ := hmem c z a
    exact cacheMerge_of_mem (cacheMerge c z a) z a l hfind hal
  refine ⟨hcreate, hmem, hidem, ?_, ?_⟩
  · intro c z a h
    rw [hidem c z a, hcreate c z a h]
    simp
  · intro c z a z' l h
    cases hz : assocFind c z with
    | none =>
      by_cases hzz : z' = z
      · rw [hzz] at h
        rw [h] at hz
        cases hz
      · exact ⟨l, by simp [cacheMerge, hz, assocFind_set_ne c z z' [a] hzz, h], fun x hx => hx⟩
    | some cur =>
      by_cases ha : a ∈ cur
      · exact ⟨l, by simp [cacheMerge, hz, ha, h], fun x hx => hx⟩
      · by_cases hzz : z' = z
        · subst hzz
          rw [h] at hz
          cases hz
          exact ⟨l ++ [a], by simp [cacheMerge, h, ha, assocFind_set_self],
            fun x hx => by simp [hx]⟩
        · exact ⟨l, by simp [cacheMerge, hz, ha, assocFind_set_ne c z z' (cur ++ [a]) hzz, h],
            fun x hx => hx⟩

/-- Witness for C7 at the concrete zone `com` and address `1.2.3.4` on the
empty cache. -/
theorem c7_cache_merge_witness :
    assocFind (cacheMerge [] "com" "1.2.3.4") "com" = some ["1.2.3.4"] ∧
    cacheMerge (cacheMerge [] "com" "1.2.3.4") "com" "1.2.3.4" = cacheMerge [] "com" "1.2.3.4" ∧
    List.count "1.2.3.4"
      ((assocFind (cacheMerge (cacheMerge [] "com" "1.2.3.4") "com" "1.2.3.4") "com").getD []) = 1 :=
  ⟨c7_cache_merge_monotone_idempotent.1 [] "com" "1.2.3.4" rfl,
   c7_cache_merge_monotone_idempotent.2.2.1 [] "com" "1.2.3.4",
   c7_cache_merge_monotone_idempotent.2.2.2.1 [] "com" "1.2.3.4" rfl⟩

/-- C5: the Query Router.  The key is the second-to-last dot-separated
component of the queried name (`first_req[-2]`); when the Address Cache
holds an entry under that key the engine is seeded with the cached candidate
list, otherwise with the root server set. -/
theorem c5_query_router_seeding :
    (∀ (l : List String) (x : String), pyNeg2 l = some x →
       2 ≤ l.length ∧ l.get? (l.length - 2) = some x) ∧
    (∀ (net : Net) (fuel : Nat) (name : String) (qtype : Nat) (cache : Cache) (key : String),
       pyNeg2 (pySplitDot name) = some key →
       (∀ addrs, assocFind cache key = some addrs →
          lookup net fuel name qtype cache = recurlookup net fuel name qtype addrs cache) ∧
       (assocFind cache key = none →
          lookup net fuel name qtype cache = recurlookup net fuel name qtype rootServers cache)) := by
  constructor
  · intro l x h
    by_cases h2 : 2 ≤ l.length
    · exact ⟨h2, by simpa [pyNeg2, h2] using h⟩
    · simp [pyNeg2, h2] at h
  · intro net fuel name qtype cache key hkey
    constructor
    · intro addrs hfind
      simp [lookup, hkey, hfind]
    · intro hfind
      simp [lookup, hkey, hfind]

/-- Witness for C5: the name `example.com.` keys on `com`; a cache holding
`com` seeds the engine with the cached list, the empty cache with the roots. -/
theorem c5_query_router_witness :
    lookup noNet 1 "example.com." 1 [("com", ["9.9.9.9"])] =
      recurlookup noNet 1 "example.com." 1 ["9.9.9.9"] [("com", ["9.9.9.9"])] ∧
    lookup noNet 1 "example.com." 1 [] =
      recurlookup noNet 1 "example.com." 1 rootServers [] :=
  ⟨(c5_query_router_seeding.2 noNet 1 "example.com." 1 [("com", ["9.9.9.9"])] "com" rfl).1
      ["9.9.9.9"] rfl,
   (c5_query_router_seeding.2 noNet 1 "example.com." 1 [] "com" rfl).2 rfl⟩

/-- C4: absent results of the engine.  An empty candidate list returns the
absent result at once, identically under any two oracles (hence without a
transport call); the empty server loop falls through absent; a transport
failure skips to the next candidate; and a non-absent result can only arise
from a candidate the oracle actually answered. -/
theorem c4_absent_on_empty_or_exhausted :
    (∀ (net net' : Net) (fuel : Nat) (name : String) (qtype : Nat) (cache : Cache),
       recurlookup net (fuel + 1) name qtype [] cache = Except.ok (none, cache) ∧
       recurlookup net (fuel + 1) name qtype [] cache =
         recurlookup net' (fuel + 1) name qtype [] cache) ∧
    (∀ (recur : RecurFn) (net : Net) (origName : String) (qtype : Nat) (tn : String)
       (cache : Cache),
       serverLoop recur net origName qtype [] tn cache = Except.ok (none, cache)) ∧
    (∀ (recur : RecurFn) (net : Net) (origName : String) (qtype : Nat) (s : String)
       (rest : List String) (tn : String) (cache : Cache), net origName qtype s = none →
       serverLoop recur net origName qtype (s :: rest) tn cache =
         serverLoop recur net origName qtype rest tn cache) ∧
    (∀ (recur : RecurFn) (net : Net) (origName : String) (qtype : Nat)
       (servers : List String) (tn : String) (cache : Cache) (r : Response) (c' : Cache),
       serverLoop recur net origName qtype servers tn cache = Except.ok (some r, c') →
       ∃ s ∈ servers, net origName qtype s ≠ none) := by
  refine ⟨fun _ _ _ _ _ _ => ⟨rfl, rfl⟩, fun _ _ _ _ _ _ => rfl, ?_, ?_⟩
  · intro recur net origName qtype s rest tn cache h
    simp [serverLoop, h]
  · intro recur net origName qtype servers tn cache r c' h
    induction servers generalizing tn cache with
    | nil => simp [serverLoop] at h
    | cons s rest ih =>
      cases hnet : net origName qtype s with
      | none =>
        simp only [serverLoop, hnet] at h
        obtain ⟨s', hs', hne⟩ := ih tn cache h
        exact ⟨s', List.mem_cons_of_mem _ hs', hne⟩
      | some resp => exact ⟨s, List.mem_cons_self s rest, by simp [hnet]⟩

/-- Witness for C4: a transport failure skips the dead candidate, and the
non-absent result on `w1net` comes from an answered candidate. -/
theorem c4_absent_witness :
    serverLoop noRecur noNet "example.com." 1 ["198.41.0.4"] "example.com." [] =
      serverLoop noRecur noNet "example.com." 1 [] "example.com." [] ∧
    ∃ s ∈ ["10.0.0.1"], w1net "example.com." 1 s ≠ none :=
  ⟨c4_absent_on_empty_or_exhausted.2.2.1 noRecur noNet "example.com." 1 "198.41.0.4" []
      "example.com." [] rfl,
   c4_absent_on_empty_or_exhausted.2.2.2 noRecur w1net "example.com." 1 ["10.0.0.1"]
      "example.com." [] w1resp [] rfl⟩

theorem answerWalk_append (recur : RecurFn) (qtype : Nat) (resp : Response) (cache : Cache)
    (xs : List Rec) :
    ∀ (ys : List Rec) (tn : String),
    answerWalk recur qtype resp cache (xs ++ ys) tn =
      match answerWalk recur qtype resp cache xs tn with
      | Except.ok (Sum.inr tn') => answerWalk recur qtype resp cache ys tn'
      | other => other := by
  induction xs with
  | nil => intro ys tn; simp [answerWalk]
  | cons r rest ih =>
    intro ys tn
    by_cases hq : r.rdtype = qtype
    · simp [answerWalk, hq]
    · by_cases h5 : r.rdtype = 5
      · have hq' : ¬ (5 = qtype) := fun hh => hq (h5.trans hh)
        simp only [List.cons_append, answerWalk, h5, if_neg hq']
        cases hrec : recur (pyDropLast r.text) qtype rootServers cache with
        | error e => simp [Except.map]
        | ok v => simp [Except.map]
      · simp [answerWalk, hq, h5, ih]

theorem answerWalkGroups_eq_flat (recur : RecurFn) (qtype : Nat) (resp : Response)
    (cache : Cache) (groups : List RRset) :
    ∀ tn, answerWalkGroups recur qtype resp cache groups tn =
      answerWalk recur qtype resp cache (flatRecs groups) tn := by
  induction groups with
  | nil => intro tn; simp [answerWalkGroups, flatRecs, answerWalk]
  | cons g gs ih =>
    intro tn
    have hflat : flatRecs (g :: gs) = g.recs ++ flatRecs gs := by simp [flatRecs]
    rw [hflat, answerWalk_append]
    simp only [answerWalkGroups]
    cases hw : answerWalk recur qtype resp cache g.recs tn with
    | error e => rfl
    | ok v =>
      cases v with
      | inl p => rfl
      | inr tn' => exact ih tn'

/-- C1: the answer-section walk.  In walk order, a prefix of records neither
matching the query type nor CNAME-typed is passed over; the first matching
record returns the current response; the first CNAME record (rdtype 5, when
the query type is not CNAME) makes the result exactly that of a restart on
the CNAME target from the root servers, so the current response, a CNAME
answer, is never the value returned; the grouped walk is the flat walk; and
a response with a non-empty answer section is handled by exactly this walk. -/
theorem c1_answer_walk_first_match :
    (∀ (recur : RecurFn) (qtype : Nat) (resp : Response) (cache : Cache) (recs : List Rec)
       (tn : String),
       (∃ tn', answerWalk recur qtype resp cache recs tn = Except.ok (Sum.inr tn') ∧
          ∀ r ∈ recs, r.rdtype ≠ qtype ∧ r.rdtype ≠ 5) ∨
       (∃ pre r post, recs = pre ++ r :: post ∧
          (∀ p ∈ pre, p.rdtype ≠ qtype ∧ p.rdtype ≠ 5) ∧
          ((r.rdtype = qtype ∧
              answerWalk recur qtype resp cache recs tn =
                Except.ok (Sum.inl (some resp, cache))) ∨
           (r.rdtype = 5 ∧ qtype ≠ 5 ∧
              answerWalk recur qtype resp cache recs tn =
                (recur (pyDropLast r.text) qtype rootServers cache).map Sum.inl)))) ∧
    (∀ (recur : RecurFn) (qtype : Nat) (resp : Response) (cache : Cache)
       (groups : List RRset) (tn : String),
       answerWalkGroups recur qtype resp cache groups tn =
         answerWalk recur qtype resp cache (flatRecs groups) tn) ∧
    (∀ (recur : RecurFn) (net : Net) (origName : String) (qtype : Nat) (s : String)
       (rest : List String) (tn : String) (cache : Cache) (resp : Response),
       net origName qtype s = some resp → resp.answer ≠ [] →
       serverLoop recur net origName qtype (s :: rest) tn cache =
         match answerWalkGroups recur qtype resp cache resp.answer tn with
         | Except.error e => Except.error e
         | Except.ok (Sum.inl r) => Except.ok r
         | Except.ok (Sum.inr tn') => serverLoop recur net origName qtype rest tn' cache) := by
  refine ⟨?_, fun recur qtype resp cache groups tn =>
    answerWalkGroups_eq_flat recur qtype resp cache groups tn, ?_⟩
  · intro recur qtype resp cache recs
    induction recs with
    | nil => intro tn; exact Or.inl ⟨tn, rfl, by simp⟩
    | cons r rest ih =>
      intro tn
      by_cases hq : r.rdtype = qtype
      · exact Or.inr ⟨[], r, rest, rfl, by simp, Or.inl ⟨hq, by simp [answerWalk, hq]⟩⟩
      · by_cases h5 : r.rdtype = 5
        · have hq' : ¬ (5 = qtype) := fun hh => hq (h5.trans hh)
          exact Or.inr ⟨[], r, rest, rfl, by simp,
            Or.inr ⟨h5, fun hh => hq' hh.symm, by simp [answerWalk, h5, hq']⟩⟩
        · have hstep : answerWalk recur qtype resp cache (r :: rest) tn =
              answerWalk recur qtype resp cache rest (pyDropLast r.text) := by
            simp [answerWalk, hq, h5]
          rcases ih (pyDropLast r.text) with ⟨tn', heq, hall⟩ | ⟨pre, rr, post, heqr, hpre, hcase⟩
          · refine Or.inl ⟨tn', hstep.trans heq, ?_⟩
            intro r' hr'
            rcases List.mem_cons.mp hr' with h | h
            · subst h; exact ⟨hq, h5⟩
            · exact hall r' h
          · refine Or.inr ⟨r :: pre, rr, post, by rw [heqr, List.cons_append], ?_, ?_⟩
            · intro p hp
              rcases List.mem_cons.mp hp with h | h
              · subst h; exact ⟨hq, h5⟩
              · exact hpre p h
            · rcases hcase with ⟨hrq, heq2⟩ | ⟨hr5, hq5, heq2⟩
              · exact Or.inl ⟨hrq, hstep.trans heq2⟩
              · exact Or.inr ⟨hr5, hq5, hstep.trans heq2⟩
  · intro recur net origName qtype s rest tn cache resp hnet hans
    simp only [serverLoop]
    rw [hnet]
    simp [hans]

/-- Witness for C1: a one-candidate server loop whose response has a
non-empty answer section dispatches to the answer walk. -/
theorem c1_answer_walk_witness :
    serverLoop noRecur w1net "example.com." 1 ["198.41.0.4"] "example.com." [] =
      match answerWalkGroups noRecur 1 w1resp [] w1resp.answer "example.com." with
      | Except.error e => Except.error e
      | Except.ok (Sum.inl r) => Except.ok r
      | Except.ok (Sum.inr tn') => serverLoop noRecur w1net "example.com." 1 [] tn' [] :=
  c1_answer_walk_first_match.2.2 noRecur w1net "example.com." 1 "198.41.0.4" []
    "example.com." [] w1resp rfl (by decide)

/-- C3: a referral with glue.  When a candidate's response has an empty
answer section and a non-empty additional section, every additional RRset is
fed through the Glue Extractor into one accumulated address list, the engine
recurses on the current target name and query type with that list, and that
recursion's result is returned directly: the remaining original candidates
are never consulted. -/
theorem c3_glue_referral_direct_return :
    (∀ (recur : RecurFn) (net : Net) (origName : String) (qtype : Nat) (s : String)
       (rest : List String) (tn : String) (cache : Cache) (resp : Response),
       net origName qtype s = some resp → resp.answer = [] → resp.additional ≠ [] →
       (serverLoop recur net origName qtype (s :: rest) tn cache =
          match glueFold resp.additional [] cache with
          | Except.error e => Except.error e
          | Except.ok (addrs, c1) => recur tn qtype addrs c1) ∧
       serverLoop recur net origName qtype (s :: rest) tn cache =
         serverLoop recur net origName qtype [s] tn cache) ∧
    (∀ (net : Net) (fuel : Nat) (name : String) (qtype : Nat) (s : String)
       (rest : List String) (cache : Cache) (resp : Response),
       net name qtype s = some resp → resp.answer = [] → resp.additional ≠ [] →
       recurlookup net (fuel + 1) name qtype (s :: rest) cache =
         match glueFold resp.additional [] cache with
         | Except.error e => Except.error e
         | Except.ok (addrs, c1) => recurlookup net fuel name qtype addrs c1) ∧
    (∀ (g : RRset) (gs : List RRset) (addrs : List String) (cache : Cache),
       glueFold (g :: gs) addrs cache =
         match dns_caching g.render cache with
         | Except.error e => Except.error e
         | Except.ok (a, c') => glueFold gs (addrs ++ a) c') ∧
    (∀ (gs : List RRset) (addrs : List String) (cache : Cache),
       glueFold gs addrs cache =
         (glueFold gs [] cache).map (fun p => (addrs ++ p.1, p.2))) := by
  have hfold : ∀ (gs : List RRset) (addrs : List String) (cache : Cache),
      glueFold gs addrs cache =
        (glueFold gs [] cache).map (fun p => (addrs ++ p.1, p.2)) := by
    intro gs
    induction gs with
    | nil => intro addrs cache; simp [glueFold, Except.map]
    | cons g gs ih =>
      intro addrs cache
      cases hdc : dns_caching g.render cache with
      | error e => simp [glueFold, hdc, Except.map]
      | ok p =>
        obtain ⟨a, c'⟩ := p
        simp only [glueFold, hdc]
        rw [ih (addrs ++ a) c', ih ([] ++ a) c']
        cases hbase : glueFold gs [] c' with
        | error e => simp [Except.map]
        | ok q => simp [Except.map, List.append_assoc]
  refine ⟨?_, ?_, fun g gs addrs cache => rfl, hfold⟩
  · intro recur net origName qtype s rest tn cache resp hnet hans hadd
    constructor
    · simp only [serverLoop]
      rw [hnet]
      simp [hans, hadd]
    · simp only [serverLoop]
      rw [hnet]
      simp [hans, hadd]
  · intro net fuel name qtype s rest cache resp hnet hans hadd
    simp only [recurlookup]
    rw [if_neg (by simp : ¬ (s :: rest = ([] : List String)))]
    simp only [serverLoop]
    rw [hnet]
    simp [hans, hadd]

/-- Witness for C3: a two-candidate engine invocation whose first candidate
returns the glue referral `c3resp` recurses on the glue addresses directly. -/
theorem c3_glue_referral_witness :
    recurlookup c3net 1 "example.com." 1 ["r1", "r2"] [] =
      match glueFold c3resp.additional [] [] with
      | Except.error e => Except.error e
      | Except.ok (addrs, c1) => recurlookup c3net 0 "example.com." 1 addrs c1 :=
  c3_glue_referral_direct_return.2.1 c3net 0 "example.com." 1 "r1" ["r2"] [] c3resp
    rfl rfl (by decide)

/-- C2 counterexample: the authority-record skip condition is rdtype 6 (SOA),
not CNAME.  A CNAME-typed (rdtype 5) authority record is NOT skipped — its
name is extracted and, as the end-to-end run on `c2net` shows, its glueless
sub-resolution path is followed to a terminal answer — while an SOA-typed
(rdtype 6) record IS skipped.  This refutes the claim's reading that
CNAME-classified authority entries are the ones skipped (the source's own
CNAME discriminator is rdtype 5, line 153). -/
theorem c2_cname_type_authority_not_skipped :
    nsAccum [⟨5, "cn.example.com.", 0, ""⟩] [] = ["cn.example.com"] ∧
    nsAccum [⟨6, "soa.example.com.", 0, ""⟩] [] = [] ∧
    recurlookup c2net 3 "example.com." 1 ["r1"] [] =
      Except.ok (some c2finalResp, [("com", ["7.7.7.7"])]) :=
  ⟨rfl, rfl, rfl⟩

theorem nsAccum_eq (recs : List Rec) :
    ∀ acc, nsAccum recs acc =
      acc ++ (recs.filter (fun r => r.rdtype ≠ 6)).map (fun r => pyDropLast r.text) := by
  induction recs with
  | nil => intro acc; simp [nsAccum]
  | cons r rest ih =>
    intro acc
    by_cases h6 : r.rdtype = 6
    · simp [nsAccum, h6, ih]
    · simp [nsAccum, h6, ih]

theorem nsAccum_mem (recs : List Rec) (acc : List String) (a : String) (h : a ∈ acc) :
    a ∈ nsAccum recs acc := by
  rw [nsAccum_eq]
  exact List.mem_append_left _ h

theorem authAllNames_mem (groups : List RRset) :
    ∀ (ns : List String) (a : String), a ∈ ns → a ∈ authAllNames groups ns := by
  induction groups with
  | nil => intro ns a h; simpa [authAllNames] using h
  | cons g gs ih =>
    intro ns a h
    simp only [authAllNames, List.foldl_cons]
    exact ih (nsAccum g.recs ns) a (nsAccum_mem g.recs ns a h)

theorem ansLoop_sound (recur : RecurFn) (qtype : Nat) (tn : String) (gs : List RRset) :
    ∀ (cache : Cache) (r : Response) (c' : Cache),
    ansLoop recur qtype tn gs cache = Except.ok (Sum.inl (some r, c')) →
    ∃ g ∈ gs, ∃ c3 addrs c4, dns_caching g.render c3 = Except.ok (addrs, c4) ∧
      recur tn qtype addrs c4 = Except.ok (some r, c') := by
  induction gs with
  | nil => intro cache r c' h; simp [ansLoop] at h
  | cons g gs ih =>
    intro cache r c' h
    cases hdc : dns_caching g.render cache with
    | error e => simp [ansLoop, hdc] at h
    | ok p =>
      obtain ⟨addrs, c4⟩ := p
      simp only [ansLoop, hdc] at h
      cases hrec : recur tn qtype addrs c4 with
      | error e => simp [hrec] at h
      | ok q =>
        obtain ⟨or, c2⟩ := q
        cases or with
        | some r0 =>
          simp only [hrec] at h
          obtain ⟨hr0, hc2⟩ : r0 = r ∧ c2 = c' := by simpa using h
          subst hr0
          subst hc2
          exact ⟨g, List.mem_cons_self g gs, cache, addrs, c4, hdc, hrec⟩
        | none =>
          simp only [hrec] at h
          obtain ⟨g', hg', chain⟩ := ih c2 r c' h
          exact ⟨g', List.mem_cons_of_mem _ hg', chain⟩

theorem hostLoop_sound (recur : RecurFn) (qtype : Nat) (tn : String) (hs : List String) :
    ∀ (cache : Cache) (r : Response) (c' : Cache),
    hostLoop recur qtype tn hs cache = Except.ok (Sum.inl (some r, c')) →
    ∃ h ∈ hs, subResolutionPath recur qtype tn h r c' := by
  induction hs with
  | nil => intro cache r c' hh; simp [hostLoop] at hh
  | cons h hs ih =>
    intro cache r c' hh
    cases hrec : recur h 1 rootServers cache with
    | error e => simp [hostLoop, hrec] at hh
    | ok p =>
      obtain ⟨or, c1⟩ := p
      cases or with
      | none =>
        simp only [hostLoop, hrec] at hh
        obtain ⟨h', hmem, hpath⟩ := ih c1 r c' hh
        exact ⟨h', List.mem_cons_of_mem _ hmem, hpath⟩
      | some aresp =>
        simp only [hostLoop, hrec] at hh
        cases hal : ansLoop recur qtype tn aresp.answer c1 with
        | error e => simp [hal] at hh
        | ok v =>
          cases v with
          | inl q =>
            simp only [hal] at hh
            have hq : q = (some r, c') := by simpa using hh
            subst hq
            obtain ⟨g, hg, c3, addrs, c4, hdc, hr⟩ :=
              ansLoop_sound recur qtype tn aresp.answer c1 r c' hal
            exact ⟨h, List.mem_cons_self h hs,
              cache, aresp, c1, hrec, g, hg, c3, addrs, c4, hdc, hr⟩
          | inr c2 =>
            simp only [hal] at hh
            obtain ⟨h', hmem, hpath⟩ := ih c2 r c' hh
            exact ⟨h', List.mem_cons_of_mem _ hmem, hpath⟩

theorem authLoop_sound (recur : RecurFn) (qtype : Nat) (tn : String) (groups : List RRset) :
    ∀ (ns : List String) (cache : Cache) (r : Response) (c' : Cache),
    authLoop recur qtype tn groups ns cache = Except.ok (Sum.inl (some r, c')) →
    ∃ h ∈ authAllNames groups ns, subResolutionPath recur qtype tn h r c' := by
  induction groups with
  | nil => intro ns cache r c' h; simp [authLoop] at h
  | cons g gs ih =>
    intro ns cache r c' h
    cases hh : hostLoop recur qtype tn (nsAccum g.recs ns) cache with
    | error e => simp [authLoop, hh] at h
    | ok v =>
      cases v with
      | inl q =>
        simp only [authLoop, hh] at h
        have hq : q = (some r, c') := by simpa using h
        subst hq
        obtain ⟨hn, hmem, hpath⟩ :=
          hostLoop_sound recur qtype tn (nsAccum g.recs ns) cache r c' hh
        refine ⟨hn, ?_, hpath⟩
        simp only [authAllNames, List.foldl_cons]
        exact authAllNames_mem gs (nsAccum g.recs ns) hn hmem
      | inr c1 =>
        simp only [authLoop, hh] at h
        obtain ⟨hn, hmem, hpath⟩ := ih (nsAccum g.recs ns) c1 r c' h
        refine ⟨hn, ?_, hpath⟩
        simp only [authAllNames, List.foldl_cons]
        simpa [authAllNames] using hmem

/-- C2 (amended): a glueless referral.  When a candidate's response has
empty answer and additional sections, name-server hostnames are extracted
from the authority section skipping exactly the SOA-typed (rdtype 6)
records — not CNAME-typed ones as the spec says; each accumulated hostname
is resolved by a type-A (code 1) sub-resolution seeded from the root servers
regardless of the caller's query type; each found answer RRset is fed
through the Glue Extractor and the engine recurses on the current target
name and query type with the extracted address set; and any non-absent
result returned by the authority processing arises from such a path through
one of the accumulated hostnames. -/
theorem c2_glueless_referral_amended :
    (∀ (recs : List Rec) (acc : List String),
       nsAccum recs acc =
         acc ++ (recs.filter (fun r => r.rdtype ≠ 6)).map (fun r => pyDropLast r.text)) ∧
    (∀ (recur : RecurFn) (net : Net) (origName : String) (qtype : Nat) (s : String)
       (rest : List String) (tn : String) (cache : Cache) (resp : Response),
       net origName qtype s = some resp → resp.answer = [] → resp.additional = [] →
       serverLoop recur net origName qtype (s :: rest) tn cache =
         match authLoop recur qtype tn resp.authority [] cache with
         | Except.error e => Except.error e
         | Except.ok (Sum.inl r) => Except.ok r
         | Except.ok (Sum.inr c1) => serverLoop recur net origName qtype rest tn c1) ∧
    (∀ (recur : RecurFn) (qtype : Nat) (tn : String) (groups : List RRset)
       (ns : List String) (cache : Cache) (r : Response) (c' : Cache),
       authLoop recur qtype tn groups ns cache = Except.ok (Sum.inl (some r, c')) →
       ∃ h ∈ authAllNames groups ns, subResolutionPath recur qtype tn h r c') := by
  refine ⟨fun recs acc => nsAccum_eq recs acc, ?_,
    fun recur qtype tn groups ns cache r c' h =>
      authLoop_sound recur qtype tn groups ns cache r c' h⟩
  intro recur net origName qtype s rest tn cache resp hnet hans hadd
  simp only [serverLoop]
  rw [hnet]
  simp [hans, hadd]

/-- Witness for C2: the dispatch into authority processing on `c2net`'s
glueless referral, and a concrete successful glueless path through hostname
`h1` extracted from an NS authority record. -/
theorem c2_glueless_referral_witness :
    (serverLoop noRecur c2net "example.com." 1 ["r1", "rX"] "example.com." [] =
       match authLoop noRecur 1 "example.com." c2refResp.authority [] [] with
       | Except.error e => Except.error e
       | Except.ok (Sum.inl r) => Except.ok r
       | Except.ok (Sum.inr c1) =>
           serverLoop noRecur c2net "example.com." 1 ["rX"] "example.com." c1) ∧
    ∃ h ∈ authAllNames [c2wAuthG] [],
      subResolutionPath c2wRecur 1 "tn0" h c2wFin [("h1", ["5.5.5.5"])] :=
  ⟨c2_glueless_referral_amended.2.1 noRecur c2net "example.com." 1 "r1" ["rX"]
      "example.com." [] c2refResp rfl rfl rfl,
   c2_glueless_referral_amended.2.2 c2wRecur 1 "tn0" [c2wAuthG] [] [] c2wFin
      [("h1", ["5.5.5.5"])] rfl⟩

/-- C9: referral chains with full glue.  Along a depth-`n` chain the engine
needs exactly one fuel level per hop — `n + 1` levels in total, i.e. at most
`n` glue-guided recursive steps — and reaches the terminal answer whose
first answer record matches the query type.  The chain hypothesis constrains
the oracle at exactly one query per hop, so in particular the root servers
are consulted at most once (for the seed query) and never re-entered: the
result holds for every oracle agreeing on those `n + 1` queries. -/
theorem c9_glue_chain_terminates :
    ∀ (n : Nat) (net : Net) (name : String) (qtype : Nat) (final : Response) (a : String),
      GlueChain net name qtype final a n →
      ∀ (g : RRset) (gs : List RRset) (r : Rec) (rs : List Rec),
        final.answer = g :: gs → g.recs = r :: rs → r.rdtype = qtype →
        ∀ cache : Cache, ∃ c',
          recurlookup net (n + 1) name qtype [a] cache = Except.ok (some final, c') := by
  intro n net name qtype final a hchain
  induction hchain with
  | last a0 hnet =>
    intro g gs r rs hans hrecs hq cache
    refine ⟨cache, ?_⟩
    simp only [recurlookup]
    rw [if_neg (by simp : ¬ ([a0] = ([] : List String)))]
    simp only [serverLoop]
    rw [hnet]
    simp [hans, hrecs, answerWalkGroups, answerWalk, hq]
  | hop a0 b g0 n0 hnet hglue hrest ih =>
    intro g gs r rs hans hrecs hq cache
    obtain ⟨c1, hc1⟩ := hglue cache
    obtain ⟨c'', hrec⟩ := ih g gs r rs hans hrecs hq c1
    have hrec' : serverLoop (recurlookup net n0) net name qtype [b] name c1 =
        Except.ok (some final, c'') := by
      have h2 := hrec
      simp only [recurlookup] at h2
      simpa using h2
    refine ⟨c'', ?_⟩
    simp only [recurlookup]
    rw [if_neg (by simp : ¬ ([a0] = ([] : List String)))]
    simp only [serverLoop]
    rw [hnet]
    simp [glueFold, hc1, hrec']

/-- Witness for C9: a depth-one full-glue chain on `c9net` resolves with two
fuel levels, learning the next-hop address from the glue record. -/
theorem c9_glue_chain_witness :
    ∃ c', recurlookup c9net 2 "example.com." 1 ["1.1.1.1"] [] =
      Except.ok (some c9final, c') :=
  c9_glue_chain_terminates 1 c9net "example.com." 1 c9final "1.1.1.1"
    (GlueChain.hop "1.1.1.1" "2.2.2.2" c9glueRR 0 rfl
      (fun c => ⟨cacheMerge c "com" "2.2.2.2", rfl⟩)
      (GlueChain.last "2.2.2.2" rfl))
    ⟨"example.com.", "", [⟨1, "3.3.3.3", 0, ""⟩]⟩ [] ⟨1, "3.3.3.3", 0, ""⟩ []
    rfl rfl rfl []

/-- C6 counterexample: the CNAME collection loop of `collect_results`
(lines 56-61) has no record-type filter.  On `c6net` the CNAME lookup's
answer section interleaves an rdtype-1 (A) record before the CNAME record,
and the aggregate's CNAME list contains an entry built from that non-CNAME
record (`"1.2.3.4"`), refuting the claim that CNAME entries come only from
CNAME-type records. -/
theorem c6_cname_aggregate_unfiltered :
    collect_results c6net 2 "www.example.com" [] =
      Except.ok ({ cnames := [("1.2.3.4", "www.example.com"),
                              ("real.example.com.", "www.example.com")],
                   arecords := [], aaaarecords := [], mxrecords := [] }, []) ∧
    c6respC.answer = [⟨"www.example.com.", "",
      [⟨1, "1.2.3.4", 0, ""⟩, ⟨5, "real.example.com.", 0, ""⟩]⟩] :=
  ⟨rfl, rfl⟩

theorem cnameInner_fst (al : String) (recs : List Rec) :
    ∀ (acc : List (String × String)) (tn : String),
    (cnameInner al recs acc tn).1 = acc ++ recs.map (fun r => (r.text, al)) := by
  induction recs with
  | nil => intro acc tn; simp [cnameInner]
  | cons r rest ih => intro acc tn; simp [cnameInner, ih]

theorem cnameInner_snd (al : String) (recs : List Rec) :
    ∀ (acc : List (String × String)) (tn : String),
    (cnameInner al recs acc tn).2 = recs.foldl (fun _t r => pyDropLast r.text) tn := by
  induction recs with
  | nil => intro acc tn; simp [cnameInner]
  | cons r rest ih => intro acc tn; simp [cnameInner, ih]

theorem cnameCollect_fst (al : String) (groups : List RRset) :
    ∀ (acc : List (String × String)) (tn : String),
    (cnameCollect al groups acc tn).1 =
      acc ++ (flatRecs groups).map (fun r => (r.text, al)) := by
  induction groups with
  | nil => intro acc tn; simp [cnameCollect, flatRecs]
  | cons g gs ih =>
    intro acc tn
    simp [cnameCollect, ih, cnameInner_fst, flatRecs]

theorem cnameCollect_snd (al : String) (groups : List RRset) :
    ∀ (acc : List (String × String)) (tn : String),
    (cnameCollect al groups acc tn).2 =
      (flatRecs groups).foldl (fun _t r => pyDropLast r.text) tn := by
  induction groups with
  | nil => intro acc tn; simp [cnameCollect, flatRecs]
  | cons g gs ih =>
    intro acc tn
    simp [cnameCollect, ih, cnameInner_snd, flatRecs, List.foldl_append]

theorem typedCollect_mem (t : Nat) (groups : List RRset) (n a : String) :
    (n, a) ∈ typedCollect t groups ↔
      ∃ g ∈ groups, g.name = n ∧ ∃ r ∈ g.recs, r.rdtype = t ∧ r.text = a := by
  induction groups with
  | nil => simp [typedCollect]
  | cons g gs ih =>
    simp only [typedCollect, List.mem_append, List.mem_map, List.mem_filter, ih,
      List.mem_cons]
    constructor
    · rintro (⟨r, ⟨hr, hrt⟩, heq⟩ | ⟨g', hg', hrest⟩)
      · obtain ⟨h1, h2⟩ := Prod.mk.injEq _ _ _ _ ▸ heq
        exact ⟨g, Or.inl rfl, h1, r, hr, by simpa using hrt, h2⟩
      · exact ⟨g', Or.inr hg', hrest⟩
    · rintro ⟨g', hg' | hg', hrest⟩
      · subst hg'
        obtain ⟨hn, r, hr, hrt, hrx⟩ := hrest
        exact Or.inl ⟨r, ⟨hr, by simpa using hrt⟩, by rw [hn, hrx]⟩
      · exact Or.inr ⟨g', hg', hrest⟩

theorem mxCollect_mem (groups : List RRset) (n : String) (p : Nat) (e : String) :
    (n, p, e) ∈ mxCollect groups ↔
      ∃ g ∈ groups, g.name = n ∧
        ∃ r ∈ g.recs, r.rdtype = 15 ∧ r.preference = p ∧ r.exchange = e := by
  induction groups with
  | nil => simp [mxCollect]
  | cons g gs ih =>
    simp only [mxCollect, List.mem_append, List.mem_map, List.mem_filter, ih,
      List.mem_cons]
    constructor
    · rintro (⟨r, ⟨hr, hrt⟩, heq⟩ | ⟨g', hg', hrest⟩)
      · obtain ⟨h1, h2⟩ := Prod.mk.injEq _ _ _ _ ▸ heq
        obtain ⟨h2a, h2b⟩ := Prod.mk.injEq _ _ _ _ ▸ h2
        exact ⟨g, Or.inl rfl, h1, r, hr, by simpa using hrt, h2a, h2b⟩
      · exact ⟨g', Or.inr hg', hrest⟩
    · rintro ⟨g', hg' | hg', hrest⟩
      · subst hg'
        obtain ⟨hn, r, hr, hrt, hrp, hrx⟩ := hrest
        exact Or.inl ⟨r, ⟨hr, by simpa using hrt⟩, by rw [hn, hrp, hrx]⟩
      · exact Or.inr ⟨g', hg', hrest⟩

/-- C6 (amended): the Answer Aggregator performs exactly four lookups in the
order CNAME (5), A (1), AAAA (28), MX (15), the last three targeting the
CNAME-rewritten name left by walking every CNAME-lookup answer record (the
last record's text, minus its trailing character, wins).  The A, AAAA and MX
collections include exactly the records whose rdtype matches the requested
code; the CNAME collection, contrary to the claim, applies no type filter
and includes an entry for every record of every answer RRset. -/
theorem c6_aggregator_amended :
    (∀ (t : Nat) (groups : List RRset) (n a : String),
       (n, a) ∈ typedCollect t groups ↔
         ∃ g ∈ groups, g.name = n ∧ ∃ r ∈ g.recs, r.rdtype = t ∧ r.text = a) ∧
    (∀ (groups : List RRset) (n : String) (p : Nat) (e : String),
       (n, p, e) ∈ mxCollect groups ↔
         ∃ g ∈ groups, g.name = n ∧
           ∃ r ∈ g.recs, r.rdtype = 15 ∧ r.preference = p ∧ r.exchange = e) ∧
    (∀ (al : String) (groups : List RRset) (acc : List (String × String)) (tn : String)
       (x : String × String),
       x ∈ (cnameCollect al groups acc tn).1 ↔
         x ∈ acc ∨ ∃ g ∈ groups, ∃ r ∈ g.recs, x = (r.text, al)) ∧
    (∀ (al : String) (groups : List RRset) (acc : List (String × String)) (tn : String),
       (cnameCollect al groups acc tn).2 =
         (flatRecs groups).foldl (fun _t r => pyDropLast r.text) tn) ∧
    (∀ (net : Net) (fuel : Nat) (name : String) (cache : Cache) (respC : Response)
       (c1 : Cache),
       lookup net fuel (fromText name) 5 cache = Except.ok (some respC, c1) →
       collect_results net fuel name cache =
         match lookup net fuel (cnameCollect name respC.answer [] (fromText name)).2 1 c1 with
         | Except.error e => Except.error e
         | Except.ok (respA, c2) =>
           match lookup net fuel
               (cnameCollect name respC.answer [] (fromText name)).2 28 c2 with
           | Except.error e => Except.error e
           | Except.ok (respAAAA, c3) =>
             match lookup net fuel
                 (cnameCollect name respC.answer [] (fromText name)).2 15 c3 with
             | Except.error e => Except.error e
             | Except.ok (respMX, c4) =>
               Except.ok ({ cnames := (cnameCollect name respC.answer [] (fromText name)).1,
                            arecords := match respA with
                              | none => []
                              | some r => typedCollect 1 r.answer,
                            aaaarecords := match respAAAA with
                              | none => []
                              | some r => typedCollect 28 r.answer,
                            mxrecords := match respMX with
                              | none => []
                              | some r => mxCollect r.answer }, c4)) := by
  refine ⟨typedCollect_mem, mxCollect_mem, ?_, cnameCollect_snd, ?_⟩
  · intro al groups acc tn x
    rw [cnameCollect_fst]
    simp only [List.mem_append, List.mem_map, flatRecs, List.mem_flatten]
    constructor
    · rintro (hx | ⟨r, hr, hxe⟩)
      · exact Or.inl hx
      · obtain ⟨l, hl, hrl⟩ := hr
        obtain ⟨g, hg, hgl⟩ := hl
        exact Or.inr ⟨g, hg, r, by rw [← hgl] at hrl; exact hrl, hxe.symm⟩
    · rintro (hx | ⟨g, hg, r, hr, hxe⟩)
      · exact Or.inl hx
      · exact Or.inr ⟨r, ⟨g.recs, ⟨g, hg, rfl⟩, hr⟩, hxe.symm⟩
  · intro net fuel name cache respC c1 hC
    simp only [collect_results, hC]

/-- Witness for C6 (amended): on `c6net` the CNAME lookup succeeds and the
aggregator continues with the A, AAAA and MX lookups at the rewritten name. -/
theorem c6_aggregator_witness :
    collect_results c6net 2 "www.example.com" [] =
      match lookup c6net 2
          (cnameCollect "www.example.com" c6respC.answer [] (fromText "www.example.com")).2
          1 [] with
      | Except.error e => Except.error e
      | Except.ok (respA, c2) =>
        match lookup c6net 2
            (cnameCollect "www.example.com" c6respC.answer [] (fromText "www.example.com")).2
            28 c2 with
        | Except.error e => Except.error e
        | Except.ok (respAAAA, c3) =>
          match lookup c6net 2
              (cnameCollect "www.example.com" c6respC.answer [] (fromText "www.example.com")).2
              15 c3 with
          | Except.error e => Except.error e
          | Except.ok (respMX, c4) =>
            Except.ok ({ cnames := (cnameCollect "www.example.com" c6respC.answer []
                           (fromText "www.example.com")).1,
                         arecords := match respA with
                           | none => []
                           | some r => typedCollect 1 r.answer,
                         aaaarecords := match respAAAA with
                           | none => []
                           | some r => typedCollect 28 r.answer,
                         mxrecords := match respMX with
                           | none => []
                           | some r => mxCollect r.answer }, c4) :=
  c6_aggregator_amended.2.2.2.2 c6net 2 "www.example.com" [] c6respC [] rfl

theorem pydedup_go (names : List String) :
    ∀ acc : List String, acc.Nodup →
      (names.foldl (fun acc i => if i ∈ acc then acc else acc ++ [i]) acc).Nodup ∧
      ∀ x, x ∈ names.foldl (fun acc i => if i ∈ acc then acc else acc ++ [i]) acc ↔
        x ∈ acc ∨ x ∈ names := by
  induction names with
  | nil => intro acc h; simp [h]
  | cons i rest ih =>
    intro acc h
    simp only [List.foldl_cons]
    by_cases hi : i ∈ acc
    · rw [if_pos hi]
      obtain ⟨h1, h2⟩ := ih acc h
      refine ⟨h1, fun x => ?_⟩
      rw [h2 x]
      simp only [List.mem_cons]
      constructor
      · rintro (hx | hx)
        · exact Or.inl hx
        · exact Or.inr (Or.inr hx)
      · rintro (hx | hx | hx)
        · exact Or.inl hx
        · subst hx; exact Or.inl hi
        · exact Or.inr hx
    · rw [if_neg hi]
      have hnd : (acc ++ [i]).Nodup := by
        simp [List.nodup_append, h, hi]
      obtain ⟨h1, h2⟩ := ih (acc ++ [i]) hnd
      refine ⟨h1, fun x => ?_⟩
      rw [h2 x]
      simp only [List.mem_append, List.mem_singleton, List.mem_cons]
      tauto

/-- C8: dedup and memoization of `main`.  The input dedup loop keeps exactly
the distinct names (no duplicates, same membership); a name present in the
Domain Result cache is served from it with both caches untouched and
identically under any two oracles (no resolution work); and after any
processing of a name, processing the same name again returns the identical
Domain Result with no state change; `main` runs the per-name loop on the
deduplicated list with both caches empty. -/
theorem c8_dedup_memoization :
    (∀ names : List String,
       (pydedup names).Nodup ∧ ∀ x, x ∈ pydedup names ↔ x ∈ names) ∧
    (∀ (net net' : Net) (fuel : Nat) (name : String) (dc : DomainCache) (cache : Cache)
       (r : DomainResult), assocFind dc name = some r →
       processOne net fuel name dc cache = Except.ok (r, dc, cache) ∧
       processOne net fuel name dc cache = processOne net' fuel name dc cache) ∧
    (∀ (net : Net) (fuel : Nat) (name : String) (dc : DomainCache) (cache : Cache)
       (r : DomainResult) (dc' : DomainCache) (c' : Cache),
       processOne net fuel name dc cache = Except.ok (r, dc', c') →
       processOne net fuel name dc' c' = Except.ok (r, dc', c')) ∧
    (∀ (net : Net) (fuel : Nat) (args : List String),
       main net fuel args = processNames net fuel (pydedup args) [] []) := by
  refine ⟨?_, ?_, ?_, fun _ _ _ => rfl⟩
  · intro names
    have h := pydedup_go names [] (by simp)
    simpa [pydedup] using h
  · intro net net' fuel name dc cache r h
    constructor <;> simp [processOne, h]
  · intro net fuel name dc cache r dc' c' h
    cases hf : assocFind dc name with
    | some r0 =>
      simp only [processOne, hf] at h
      obtain ⟨h1, h2, h3⟩ : r0 = r ∧ dc = dc' ∧ cache = c' := by simpa using h
      subst h1
      subst h2
      subst h3
      simp [processOne, hf]
    | none =>
      simp only [processOne, hf] at h
      cases hc : collect_results net fuel name cache with
      | error e => simp [hc] at h
      | ok p =>
        obtain ⟨r0, c0⟩ := p
        simp only [hc] at h
        obtain ⟨h1, h2, h3⟩ : r0 = r ∧ dc ++ [(name, r0)] = dc' ∧ c0 = c' := by simpa using h
        have hfind : assocFind (dc ++ [(name, r0)]) name = some r0 :=
          assocFind_append_self dc name r0 hf
        rw [← h2, ← h3, ← h1]
        simp [processOne, hfind]

/-- Witness for C8: a cached name is served untouched, and reprocessing a
freshly stored name returns the identical stored aggregate. -/
theorem c8_dedup_memoization_witness :
    processOne noNet 1 "ex" [("ex", emptyDR)] [] =
      Except.ok (emptyDR, [("ex", emptyDR)], []) ∧
    processOne noNet 1 "new" [("new", emptyDR)] [] =
      Except.ok (emptyDR, [("new", emptyDR)], []) :=
  ⟨(c8_dedup_memoization.2.1 noNet noNet 1 "ex" [("ex", emptyDR)] [] emptyDR rfl).1,
   c8_dedup_memoization.2.2.1 noNet 1 "new" [] [] emptyDR [("new", emptyDR)] [] rfl⟩

end DnsResolver
